import Mathlib

/-!
Verification of the chord-analyzer repository.

This file contains a shallow embedding, in Lean 4, of the analysis core of
the chord-analyzer application:

* the chord template database and the chord matcher
  (`chord-database.ts`, `detectChords` in the chord-detector component),
* the polyphonic pitch detector (`detectPitches` in `pitch-detection.ts`
  of the chord app),
* the monophonic pitch detector (`detectPitch`, `calculateCents` in
  `pitch-detection.ts` of the vocal app),
* the root-note inference and the volume normalisation of the audio
  recorder component (`analyzeAudio`),
* the stability tracking state of the vocal pitch display component.

JavaScript numbers are embedded as rationals (all constants occurring in
the sources are decimal fractions), `Uint8Array` spectra as `List Nat`,
and fallible lookups as `Option`.  `Array.prototype.sort` with the
comparators used by the sources is a stable descending sort, which is
rendered by `List.insertionSort` with the corresponding total order
(Mathlib's insertion sort is stable).
-/

attribute [local semireducible] Rat.mul Rat.inv Rat.add Rat.sub Rat.ofScientific

namespace ChordAnalyzer

/-- The fixed 12-tone chromatic ordering returned by `getAllNotes()` in the
chord-detector component: C, C#, D, D#, E, F, F#, G, G#, A, A#, B (written
here as the concatenation of its two halves). -/
def allNotes : List String :=
  ["C", "C#", "D", "D#", "E", "F"] ++ ["F#", "G", "G#", "A", "A#", "B"]

/-- One entry of the chord template database (`ChordInfo` in
`chord-database.ts`; the optional `description` field is display-only and
omitted). -/
structure ChordInfo where
  suffix : String
  intervals : List Nat
deriving DecidableEq, Repr

/-- The chord template database `chordDatabase` of `chord-database.ts`, as the
association list produced by `Object.entries` (insertion order of the object
literal). -/
def chordDatabase : List (String × ChordInfo) :=
  [("major", ⟨"", [0, 4, 7]⟩),
   ("minor", ⟨"m", [0, 3, 7]⟩),
   ("diminished", ⟨"dim", [0, 3, 6]⟩),
   ("augmented", ⟨"aug", [0, 4, 8]⟩),
   ("sus2", ⟨"sus2", [0, 2, 7]⟩),
   ("sus4", ⟨"sus4", [0, 5, 7]⟩),
   ("major7", ⟨"maj7", [0, 4, 7, 11]⟩),
   ("dominant7", ⟨"7", [0, 4, 7, 10]⟩),
   ("minor7", ⟨"m7", [0, 3, 7, 10]⟩),
   ("minor-major7", ⟨"mMaj7", [0, 3, 7, 11]⟩),
   ("diminished7", ⟨"dim7", [0, 3, 6, 9]⟩),
   ("half-diminished7", ⟨"m7b5", [0, 3, 6, 10]⟩),
   ("augmented7", ⟨"aug7", [0, 4, 8, 10]⟩),
   ("augmented-major7", ⟨"augMaj7", [0, 4, 8, 11]⟩),
   ("major6", ⟨"6", [0, 4, 7, 9]⟩),
   ("minor6", ⟨"m6", [0, 3, 7, 9]⟩),
   ("major9", ⟨"maj9", [0, 4, 7, 11, 14]⟩),
   ("dominant9", ⟨"9", [0, 4, 7, 10, 14]⟩),
   ("minor9", ⟨"m9", [0, 3, 7, 10, 14]⟩),
   ("major11", ⟨"maj11", [0, 4, 7, 11, 14, 17]⟩),
   ("dominant11", ⟨"11", [0, 4, 7, 10, 14, 17]⟩),
   ("minor11", ⟨"m11", [0, 3, 7, 10, 14, 17]⟩),
   ("major13", ⟨"maj13", [0, 4, 7, 11, 14, 17, 21]⟩),
   ("dominant13", ⟨"13", [0, 4, 7, 10, 14, 17, 21]⟩),
   ("minor13", ⟨"m13", [0, 3, 7, 10, 14, 17, 21]⟩),
   ("add9", ⟨"add9", [0, 4, 7, 14]⟩),
   ("madd9", ⟨"madd9", [0, 3, 7, 14]⟩),
   ("add11", ⟨"add11", [0, 4, 7, 17]⟩),
   ("7b5", ⟨"7b5", [0, 4, 6, 10]⟩),
   ("7#5", ⟨"7#5", [0, 4, 8, 10]⟩),
   ("7b9", ⟨"7b9", [0, 4, 7, 10, 13]⟩),
   ("7#9", ⟨"7#9", [0, 4, 7, 10, 15]⟩),
   ("7#11", ⟨"7#11", [0, 4, 7, 10, 14, 18]⟩),
   ("7b13", ⟨"7b13", [0, 4, 7, 10, 14, 17, 20]⟩)]

/-- `generateChordNotes` of the chord-detector component: the absolute chord
notes of a root and an interval pattern,
`allNotes[(allNotes.indexOf(root) + interval) % 12]`. -/
def generateChordNotes (root : String) (intervals : List Nat) : List String :=
  intervals.map (fun interval => allNotes.getD ((allNotes.indexOf root + interval) % 12) "")

/-- The weight factor of `detectChords`: an interval position is weighted 2
when it is a third (`=== 4 || === 3`) or a seventh (`=== 10 || === 11`),
else 1. -/
def weightOf (interval : Nat) : ℚ :=
  if (interval = 4 ∨ interval = 3) ∨ (interval = 10 ∨ interval = 11) then 2 else 1

/-- The `totalPossibleScore` accumulated by `detectChords`: the sum of the
weights of all interval positions of the template. -/
def totalPossibleScore (info : ChordInfo) : ℚ :=
  (info.intervals.map weightOf).sum

/-- The `matchScore` accumulated by `detectChords`: the weights of the chord
note positions present in `activeNotes`, plus `0.5` for every active note
contained in the chord notes, minus `0.5` for every active note not contained
in them.  The `forEach` over `chordNotes` with `chordInfo.intervals[index]`
is rendered as a traversal of the zip of the intervals with the generated
chord notes. -/
def matchScore (activeNotes : List String) (root : String) (info : ChordInfo) : ℚ :=
  ((info.intervals.zip (generateChordNotes root info.intervals)).map
      (fun q => if q.2 ∈ activeNotes then weightOf q.1 else 0)).sum
    + (activeNotes.countP
        (fun n => decide (n ∈ generateChordNotes root info.intervals)) : ℚ) * (1 / 2)
    - (activeNotes.countP
        (fun n => decide (n ∉ generateChordNotes root info.intervals)) : ℚ) * (1 / 2)

/-- `matchPercentage` of a candidate in `detectChords`:
`(matchScore / totalPossibleScore) * 100`. -/
def matchPercentage (activeNotes : List String) (root : String) (info : ChordInfo) : ℚ :=
  matchScore activeNotes root info / totalPossibleScore info * 100

/-- A chord candidate (`ChordMatch` of the chord-detector component). -/
structure ChordMatch where
  name : String
  fullName : String
  matchPercentage : ℚ
  notes : List String
deriving DecidableEq, Repr

/-- The record pushed onto `matches` by `detectChords` for a surviving
candidate; its stored percentage is the raw percentage capped at 100. -/
def mkMatch (pct : ℚ) (root chordType : String) (info : ChordInfo) : ChordMatch :=
  { name := chordType
    fullName := root ++ info.suffix
    matchPercentage := min pct 100
    notes := generateChordNotes root info.intervals }

/-- The root search space of `detectChords`: the root hint alone when
provided, else all 12 pitch classes. -/
def possibleRoots : Option String → List String
  | some r => [r]
  | none => allNotes

/-- The unsorted list of surviving candidates accumulated by the nested loops
of `detectChords` (roots outer, database entries inner, candidates with a raw
percentage above 30 kept). -/
def candidates (activeNotes : List String) (rootNote : Option String) : List ChordMatch :=
  (possibleRoots rootNote).flatMap (fun root =>
    chordDatabase.filterMap (fun e =>
      if 30 < matchPercentage activeNotes root e.2 then
        some (mkMatch (matchPercentage activeNotes root e.2) root e.1 e.2)
      else none))

/-- `detectChords` of the chord-detector component: the surviving candidates
sorted by `(a, b) => b.matchPercentage - a.matchPercentage`, a stable
descending sort on the stored percentage. -/
def detectChords (activeNotes : List String) (rootNote : Option String) : List ChordMatch :=
  (candidates activeNotes rootNote).insertionSort
    (fun a b => b.matchPercentage ≤ a.matchPercentage)

/-! ### Peak extraction and pitch detection -/

/-- A spectral peak (`{ frequency, magnitude }` in `detectPitches`). -/
structure Peak where
  frequency : ℚ
  magnitude : Nat
deriving DecidableEq, Repr

/-- The frequency of bin `i`: `(i * sampleRate) / fftSize`. -/
def binFrequency (sampleRate fftSize : ℚ) (i : Nat) : ℚ :=
  i * sampleRate / fftSize

/-- The local-peak test shared by `detectPitches` and `detectPitch`: the bin's
magnitude exceeds the floor, exceeds its left neighbour (or the bin is the
first), and exceeds its right neighbour (or the bin is the last).  The floor
is `100` (`noteThreshold`) in the polyphonic detector and `30`
(`minMagnitude`) in the monophonic one. -/
def isLocalPeak (floor : Nat) (data : List Nat) (i : Nat) : Prop :=
  floor < data.getD i 0 ∧
    (i = 0 ∨ data.getD (i - 1) 0 < data.getD i 0) ∧
    (i = data.length - 1 ∨ data.getD (i + 1) 0 < data.getD i 0)

instance (floor : Nat) (data : List Nat) (i : Nat) :
    Decidable (isLocalPeak floor data i) := by
  unfold isLocalPeak; infer_instance

/-- The peak-collection loop of `detectPitches` (`pitch-detection.ts` of the
chord app): every local peak above the `noteThreshold` of `100` whose bin
frequency lies strictly inside the musical range `(80, 1100)` is collected, in
bin order. -/
def extractPeaksPoly (data : List Nat) (fftSize sampleRate : ℚ) : List Peak :=
  (List.range data.length).filterMap (fun i =>
    if isLocalPeak 100 data i ∧ 80 < binFrequency sampleRate fftSize i ∧
        binFrequency sampleRate fftSize i < 1100 then
      some ⟨binFrequency sampleRate fftSize i, data.getD i 0⟩
    else none)

/-- `peaks.sort((a, b) => b.magnitude - a.magnitude)`: a stable descending
sort on the magnitude. -/
def sortPeaks (peaks : List Peak) : List Peak :=
  peaks.insertionSort (fun a b => b.magnitude ≤ a.magnitude)

/-- A note band of the static note tables (`NOTE_FREQUENCIES`): a note name
and an inclusive frequency range. -/
structure NoteBand where
  name : String
  lo : ℚ
  hi : ℚ
deriving DecidableEq, Repr

/-- The `NOTE_FREQUENCIES` table of the polyphonic detector
(`pitch-detection.ts` of the chord app), in `Object.entries` (insertion)
order: middle octave, higher octave, lower octave. -/
def noteFrequenciesPoly : List NoteBand :=
  [⟨"C", 261.63 - 15, 261.63 + 15⟩,
   ⟨"C#", 277.18 - 15, 277.18 + 15⟩,
   ⟨"D", 293.66 - 15, 293.66 + 15⟩,
   ⟨"D#", 311.13 - 15, 311.13 + 15⟩,
   ⟨"E", 329.63 - 15, 329.63 + 15⟩,
   ⟨"F", 349.23 - 15, 349.23 + 15⟩,
   ⟨"F#", 369.99 - 15, 369.99 + 15⟩,
   ⟨"G", 392.0 - 15, 392.0 + 15⟩,
   ⟨"G#", 415.3 - 15, 415.3 + 15⟩,
   ⟨"A", 440.0 - 15, 440.0 + 15⟩,
   ⟨"A#", 466.16 - 15, 466.16 + 15⟩,
   ⟨"B", 493.88 - 15, 493.88 + 15⟩,
   ⟨"C2", 523.25 - 15, 523.25 + 15⟩,
   ⟨"C#2", 554.37 - 15, 554.37 + 15⟩,
   ⟨"D2", 587.33 - 15, 587.33 + 15⟩,
   ⟨"D#2", 622.25 - 15, 622.25 + 15⟩,
   ⟨"E2", 659.26 - 15, 659.26 + 15⟩,
   ⟨"F2", 698.46 - 15, 698.46 + 15⟩,
   ⟨"F#2", 739.99 - 15, 739.99 + 15⟩,
   ⟨"G2", 783.99 - 15, 783.99 + 15⟩,
   ⟨"G#2", 830.61 - 15, 830.61 + 15⟩,
   ⟨"A2", 880.0 - 15, 880.0 + 15⟩,
   ⟨"A#2", 932.33 - 15, 932.33 + 15⟩,
   ⟨"B2", 987.77 - 15, 987.77 + 15⟩,
   ⟨"C-1", 130.81 - 8, 130.81 + 8⟩,
   ⟨"C#-1", 138.59 - 8, 138.59 + 8⟩,
   ⟨"D-1", 146.83 - 8, 146.83 + 8⟩,
   ⟨"D#-1", 155.56 - 8, 155.56 + 8⟩,
   ⟨"E-1", 164.81 - 8, 164.81 + 8⟩,
   ⟨"F-1", 174.61 - 8, 174.61 + 8⟩,
   ⟨"F#-1", 185.0 - 8, 185.0 + 8⟩,
   ⟨"G-1", 196.0 - 8, 196.0 + 8⟩,
   ⟨"G#-1", 207.65 - 8, 207.65 + 8⟩,
   ⟨"A-1", 220.0 - 8, 220.0 + 8⟩,
   ⟨"A#-1", 233.08 - 8, 233.08 + 8⟩,
   ⟨"B-1", 246.94 - 8, 246.94 + 8⟩]

/-- The `NOTE_FREQUENCIES` table of the monophonic detector
(`pitch-detection.ts` of the vocal app), octaves 2 to 5, in `Object.entries`
(insertion) order. -/
def noteFrequenciesMono : List NoteBand :=
  [⟨"C2", 65.41 - 2, 65.41 + 2⟩,
   ⟨"C#2", 69.30 - 2, 69.30 + 2⟩,
   ⟨"D2", 73.42 - 2, 73.42 + 2⟩,
   ⟨"D#2", 77.78 - 2, 77.78 + 2⟩,
   ⟨"E2", 82.41 - 2, 82.41 + 2⟩,
   ⟨"F2", 87.31 - 2, 87.31 + 2⟩,
   ⟨"F#2", 92.50 - 2, 92.50 + 2⟩,
   ⟨"G2", 98.00 - 2, 98.00 + 2⟩,
   ⟨"G#2", 103.83 - 2, 103.83 + 2⟩,
   ⟨"A2", 110.00 - 2, 110.00 + 2⟩,
   ⟨"A#2", 116.54 - 2, 116.54 + 2⟩,
   ⟨"B2", 123.47 - 2, 123.47 + 2⟩,
   ⟨"C3", 130.81 - 3, 130.81 + 3⟩,
   ⟨"C#3", 138.59 - 3, 138.59 + 3⟩,
   ⟨"D3", 146.83 - 3, 146.83 + 3⟩,
   ⟨"D#3", 155.56 - 3, 155.56 + 3⟩,
   ⟨"E3", 164.81 - 3, 164.81 + 3⟩,
   ⟨"F3", 174.61 - 3, 174.61 + 3⟩,
   ⟨"F#3", 185.00 - 3, 185.00 + 3⟩,
   ⟨"G3", 196.00 - 3, 196.00 + 3⟩,
   ⟨"G#3", 207.65 - 3, 207.65 + 3⟩,
   ⟨"A3", 220.00 - 3, 220.00 + 3⟩,
   ⟨"A#3", 233.08 - 3, 233.08 + 3⟩,
   ⟨"B3", 246.94 - 3, 246.94 + 3⟩,
   ⟨"C4", 261.63 - 4, 261.63 + 4⟩,
   ⟨"C#4", 277.18 - 4, 277.18 + 4⟩,
   ⟨"D4", 293.66 - 4, 293.66 + 4⟩,
   ⟨"D#4", 311.13 - 4, 311.13 + 4⟩,
   ⟨"E4", 329.63 - 4, 329.63 + 4⟩,
   ⟨"F4", 349.23 - 4, 349.23 + 4⟩,
   ⟨"F#4", 369.99 - 4, 369.99 + 4⟩,
   ⟨"G4", 392.00 - 4, 392.00 + 4⟩,
   ⟨"G#4", 415.30 - 4, 415.30 + 4⟩,
   ⟨"A4", 440.00 - 4, 440.00 + 4⟩,
   ⟨"A#4", 466.16 - 4, 466.16 + 4⟩,
   ⟨"B4", 493.88 - 4, 493.88 + 4⟩,
   ⟨"C5", 523.25 - 5, 523.25 + 5⟩,
   ⟨"C#5", 554.37 - 5, 554.37 + 5⟩,
   ⟨"D5", 587.33 - 5, 587.33 + 5⟩,
   ⟨"D#5", 622.25 - 5, 622.25 + 5⟩,
   ⟨"E5", 659.26 - 5, 659.26 + 5⟩,
   ⟨"F5", 698.46 - 5, 698.46 + 5⟩,
   ⟨"F#5", 739.99 - 5, 739.99 + 5⟩,
   ⟨"G5", 783.99 - 5, 783.99 + 5⟩,
   ⟨"G#5", 830.61 - 5, 830.61 + 5⟩,
   ⟨"A5", 880.00 - 5, 880.00 + 5⟩,
   ⟨"A#5", 932.33 - 5, 932.33 + 5⟩,
   ⟨"B5", 987.77 - 5, 987.77 + 5⟩]

/-- Whether a band's inclusive range contains a frequency
(`frequency >= minFreq && frequency <= maxFreq`). -/
def bandContains (band : NoteBand) (frequency : ℚ) : Prop :=
  band.lo ≤ frequency ∧ frequency ≤ band.hi

instance (band : NoteBand) (frequency : ℚ) : Decidable (bandContains band frequency) := by
  unfold bandContains; infer_instance

/-- The band-lookup loop shared by both detectors: bands are tried in table
iteration order and the loop breaks at the first whose inclusive range
contains the frequency. -/
def findBand (frequency : ℚ) (table : List NoteBand) : Option NoteBand :=
  table.find? (fun band => decide (bandContains band frequency))

/-- The frequency-to-note mapping: the name of the first band of the table
containing the frequency, or none. -/
def mapToNote (frequency : ℚ) (table : List NoteBand) : Option String :=
  (findBand frequency table).map NoteBand.name

/-- `note.replace(/[-\d]/g, "")` of `detectPitches`: strips the octave
suffix, keeping only the pitch-class part of a note name. -/
def stripOctave (s : String) : String :=
  ⟨s.data.filter (fun c => ¬(c = '-' ∨ c.isDigit))⟩

/-- The note-accumulation loop of `detectPitches`: each peak is mapped to the
first matching band, the band name is reduced to its pitch class, and the
pitch class is appended when not already present. -/
def collectNotes : List Peak → List String → List String
  | [], detectedNotes => detectedNotes
  | peak :: rest, detectedNotes =>
    match mapToNote peak.frequency noteFrequenciesPoly with
    | some note =>
      let baseNote := stripOctave note
      collectNotes rest
        (if baseNote ∈ detectedNotes then detectedNotes else detectedNotes ++ [baseNote])
    | none => collectNotes rest detectedNotes

/-- `detectPitches` of `pitch-detection.ts` (chord app): peaks are collected,
sorted descending by magnitude (stable), truncated to the strongest 12, and
mapped to distinct pitch classes in order of first detection. -/
def detectPitches (data : List Nat) (fftSize sampleRate : ℚ) : List String :=
  collectNotes ((sortPeaks (extractPeaksPoly data fftSize sampleRate)).take 12) []

/-- The pitch estimate of the monophonic detector (`PitchInfo` of
`pitch-detection.ts`, vocal app).  The source stores
`cents = calculateCents(frequency, perfectFreq)`; since that is a real-number
computation the embedding keeps the reference frequency
`perfectFreq = (minFreq + maxFreq) / 2` of the matched band and defines the
cents value as a separate function of the two frequencies, exactly as the
source's helper does. -/
structure PitchInfo where
  note : String
  frequency : ℚ
  magnitude : Nat
  octave : Nat
  perfectFreq : ℚ
deriving DecidableEq, Repr

/-- `parseInt(noteName.slice(-1))`: the octave digit is the last character of
the note name. -/
def octaveOf (s : String) : Nat :=
  (s.data.getLast?.getD '0').toNat - '0'.toNat

/-- One iteration of the strongest-peak loop of `detectPitch`: a local peak
above the magnitude floor of 30 whose frequency lies in the inclusive vocal
range `[65, 1000]` and falls in some note band replaces the accumulator when
it is strictly louder than the pitch held so far. -/
def detectPitchStep (data : List Nat) (fftSize sampleRate : ℚ)
    (acc : Option PitchInfo) (i : Nat) : Option PitchInfo :=
  if isLocalPeak 30 data i then
    if 65 ≤ binFrequency sampleRate fftSize i ∧ binFrequency sampleRate fftSize i ≤ 1000 then
      match findBand (binFrequency sampleRate fftSize i) noteFrequenciesMono with
      | some band =>
        if acc.all (fun p => p.magnitude < data.getD i 0) then
          some ⟨band.name, binFrequency sampleRate fftSize i, data.getD i 0,
            octaveOf band.name, (band.lo + band.hi) / 2⟩
        else acc
      | none => acc
    else acc
  else acc

/-- `detectPitch` of `pitch-detection.ts` (vocal app): the strongest
qualifying peak mapped to its note band, or none. -/
def detectPitch (data : List Nat) (fftSize sampleRate : ℚ) : Option PitchInfo :=
  (List.range data.length).foldl (detectPitchStep data fftSize sampleRate) none

/-- `calculateCents` of `pitch-detection.ts` (vocal app):
`Math.round(1200 * Math.log2(detectedFreq / perfectFreq))`. -/
noncomputable def calculateCents (detectedFreq perfectFreq : ℚ) : ℤ :=
  round ((1200 : ℝ) * Real.logb 2 ((detectedFreq : ℝ) / (perfectFreq : ℝ)))

/-! ### Audio-recorder glue: volume level and root inference -/

/-- The volume computation of `analyzeAudio` in the audio-recorder component:
the mean of the byte-scaled magnitudes, normalised by 256
(`setVolume(avg / 256)`). -/
def volumeLevel (data : List Nat) : ℚ :=
  ((data.sum : ℚ) / (data.length : ℚ)) / 256

/-- The root-note inference loop of `analyzeAudio`: starting from the first
detected note, every later note replaces the current one when its index in
the chromatic ordering is strictly smaller. -/
def lowestLoop : List String → String → Nat → String
  | [], lowestNote, _ => lowestNote
  | n :: rest, lowestNote, lowestIndex =>
    if allNotes.indexOf n < lowestIndex then
      lowestLoop rest n (allNotes.indexOf n)
    else
      lowestLoop rest lowestNote lowestIndex

/-- The root note chosen by `analyzeAudio`: the detected note lowest in the
chromatic ordering, or none when no notes were detected. -/
def inferRoot : List String → Option String
  | [] => none
  | d :: rest => some (lowestLoop rest d (allNotes.indexOf d))

/-! ### Vocal pitch display stability tracking -/

/-- The stability state of the vocal-pitch-display component: the currently
displayed pitch (note name and cents), the stability flag, and the stability
tick counter. -/
structure VState where
  displayPitch : Option (String × Int)
  isStable : Bool
  stableTimer : Nat
deriving DecidableEq, Repr

/-- The state before any pitch has been displayed. -/
def initialVState : VState := ⟨none, false, 0⟩

/-- One run of the pitch effect of the vocal-pitch-display component for a
non-null incoming pitch: the pitch is displayed; when it matches the
displayed note within 15 cents the tick counter is incremented and the
stability flag is raised when the counter (read before the increment) already
exceeds 5; otherwise the counter and the flag are reset.  A null pitch
schedules a deferred wall-clock reset (800 ms), which is outside this
synchronous transition and leaves the state unchanged here. -/
def vstep (s : VState) (pitch : Option (String × Int)) : VState :=
  match pitch with
  | some p =>
    match s.displayPitch with
    | some dp =>
      if dp.1 = p.1 ∧ |dp.2 - p.2| < 15 then
        { displayPitch := some p
          isStable := if 5 < s.stableTimer then true else s.isStable
          stableTimer := s.stableTimer + 1 }
      else { displayPitch := some p, isStable := false, stableTimer := 0 }
    | none => { displayPitch := some p, isStable := false, stableTimer := 0 }
  | none => s

/-- Feeding the display the same detected pitch for a number of consecutive
ticks. -/
def feedPitch (p : String × Int) : Nat → VState → VState
  | 0, s => s
  | n + 1, s => feedPitch p n (vstep s (some p))

/-! ### The chord matcher's scoring formula, as the specification states it

The specification describes the candidate score of a `(root, template)` pair
in closed form; the following definitions transcribe that wording so that it
can be compared with the accumulation performed by the source. -/

/-- The specification's weighting: weight 2 for a template interval equal to
3, 4, 10 or 11, weight 1 for every other interval. -/
def specWeight (interval : Nat) : ℚ :=
  if interval = 3 ∨ interval = 4 ∨ interval = 10 ∨ interval = 11 then 2 else 1

/-- The specification's `totalPossible`: the sum of the weights of all
template intervals. -/
def specTotalPossible (intervals : List Nat) : ℚ :=
  (intervals.map specWeight).sum

/-- The specification's `matchScore`: the weights of the generated chord
notes present in `activeNotes`, plus 0.5 for each active note belonging to
the generated chord notes, minus 0.5 for each active note not belonging to
them. -/
def specMatchScore (activeNotes : List String) (root : String) (intervals : List Nat) : ℚ :=
  ((intervals.zip (generateChordNotes root intervals)).map
      (fun q => if q.2 ∈ activeNotes then specWeight q.1 else 0)).sum
    + (activeNotes.countP (fun n => decide (n ∈ generateChordNotes root intervals)) : ℚ)
        * (1 / 2)
    - (activeNotes.countP (fun n => decide (n ∉ generateChordNotes root intervals)) : ℚ)
        * (1 / 2)

/-- The specification's candidate percentage:
`100 * matchScore / totalPossible`. -/
def specPercentage (activeNotes : List String) (root : String) (intervals : List Nat) : ℚ :=
  100 * specMatchScore activeNotes root intervals / specTotalPossible intervals

/-! ### Helper lemmas about the chord matcher -/

theorem mem_detectChords {m : ChordMatch} {an : List String} {rn : Option String} :
    m ∈ detectChords an rn ↔ m ∈ candidates an rn := by
  unfold detectChords
  exact List.mem_insertionSort _

theorem mem_candidates {m : ChordMatch} {an : List String} {rn : Option String} :
    m ∈ candidates an rn ↔
      ∃ root ∈ possibleRoots rn, ∃ e ∈ chordDatabase,
        30 < matchPercentage an root e.2 ∧
        m = mkMatch (matchPercentage an root e.2) root e.1 e.2 := by
  unfold candidates
  rw [List.mem_flatMap]
  refine exists_congr fun root => and_congr_right fun _ => ?_
  rw [List.mem_filterMap]
  refine exists_congr fun e => and_congr_right fun _ => ?_
  split_ifs with h
  · simp [h, eq_comm]
  · simp [h]

/-- In an association list with pairwise distinct keys, a key determines its
value. -/
theorem assoc_unique {α β : Type} [DecidableEq α] :
    ∀ l : List (α × β), (l.map Prod.fst).Nodup →
      ∀ {a : α} {b c : β}, (a, b) ∈ l → (a, c) ∈ l → b = c := by
  intro l
  induction l with
  | nil => intro _ a b c hb; cases hb
  | cons x xs ih =>
    intro hnd a b c hb hc
    rw [List.map_cons, List.nodup_cons] at hnd
    rcases List.mem_cons.mp hb with hb1 | hb2 <;>
      rcases List.mem_cons.mp hc with hc1 | hc2
    · rw [← hb1] at hc1
      exact congrArg Prod.snd hc1.symm
    · exfalso
      apply hnd.1
      have hax : x.1 = a := congrArg Prod.fst hb1.symm
      rw [hax]
      exact List.mem_map_of_mem Prod.fst hc2
    · exfalso
      apply hnd.1
      have hax : x.1 = a := congrArg Prod.fst hc1.symm
      rw [hax]
      exact List.mem_map_of_mem Prod.fst hb2
    · exact ih hnd.2 hb2 hc2

theorem dbKeysNodup : (chordDatabase.map Prod.fst).Nodup := by decide

theorem dbIntervalsHead : ∀ e ∈ chordDatabase, e.2.intervals.head? = some 0 := by decide

theorem rootHead : ∀ root ∈ allNotes,
    allNotes.getD (allNotes.indexOf root % 12) "" = root := by decide

theorem generateChordNotes_head {root : String} (hr : root ∈ allNotes)
    {intervals : List Nat} (h0 : intervals.head? = some 0) :
    (generateChordNotes root intervals).head? = some root := by
  unfold generateChordNotes
  rw [List.head?_map, h0, Option.map_some']
  rw [Nat.add_zero]
  exact congrArg some (rootHead root hr)

theorem mkMatch_inj {p q : ℚ} {r1 r2 n1 n2 : String} {i1 i2 : ChordInfo}
    (hr1 : r1 ∈ allNotes) (hr2 : r2 ∈ allNotes)
    (h1 : (n1, i1) ∈ chordDatabase) (h2 : (n2, i2) ∈ chordDatabase)
    (h : mkMatch p r1 n1 i1 = mkMatch q r2 n2 i2) :
    r1 = r2 ∧ n1 = n2 ∧ i1 = i2 := by
  have hname : n1 = n2 := congrArg ChordMatch.name h
  subst hname
  have hinfo : i1 = i2 := assoc_unique chordDatabase dbKeysNodup h1 h2
  subst hinfo
  have hnotes : generateChordNotes r1 i1.intervals = generateChordNotes r2 i1.intervals :=
    congrArg ChordMatch.notes h
  have hhead := generateChordNotes_head hr1 (dbIntervalsHead (n1, i1) h1)
  rw [hnotes, generateChordNotes_head hr2 (dbIntervalsHead (n1, i1) h1)] at hhead
  exact ⟨(Option.some.injEq _ _ ▸ hhead).symm, rfl, rfl⟩

theorem specWeight_eq_weightOf : specWeight = weightOf := by
  funext interval
  unfold specWeight weightOf
  by_cases h : interval = 3 ∨ interval = 4 ∨ interval = 10 ∨ interval = 11
  · rw [if_pos h, if_pos (by tauto)]
  · rw [if_neg h, if_neg (by tauto)]

theorem specPercentage_eq (an : List String) (root : String) (info : ChordInfo) :
    specPercentage an root info.intervals = matchPercentage an root info := by
  unfold specPercentage matchPercentage specMatchScore matchScore specTotalPossible
    totalPossibleScore
  rw [specWeight_eq_weightOf]
  ring

/-- The candidate scores of the matcher depend on the active notes only
through membership and counting, so permuting the active notes leaves the
whole output unchanged. -/
theorem detectChords_congr {an an' : List String} (h : an.Perm an') (rn : Option String) :
    detectChords an rn = detectChords an' rn := by
  have hmem : ∀ x : String, (x ∈ an) = (x ∈ an') := fun x => propext h.mem_iff
  have hpct : matchPercentage an = matchPercentage an' := by
    funext root info
    unfold matchPercentage matchScore
    rw [h.countP_eq, h.countP_eq]
    simp only [hmem]
  unfold detectChords candidates
  rw [hpct]

/-! ### C1: the chord matcher's candidate filter, percentage and ordering -/

/-- **C1**: for every (root, template) pair considered by the matcher, the
candidate appears in the output exactly when the specification's percentage
`100 * matchScore / totalPossible` (quality-weighted base score plus the
half-point bonus/penalty passes) is strictly greater than 30; a surviving
candidate reports that percentage capped at 100; and the output is sorted
descending by the reported percentage. -/
theorem C1_matcher_scoring (an : List String) (rn : Option String)
    (root chordType : String) (info : ChordInfo)
    (hroot : root ∈ possibleRoots rn) (hdb : (chordType, info) ∈ chordDatabase) :
    (mkMatch (matchPercentage an root info) root chordType info ∈ detectChords an rn ↔
      30 < specPercentage an root info.intervals)
    ∧ (mkMatch (matchPercentage an root info) root chordType info).matchPercentage =
        min (specPercentage an root info.intervals) 100
    ∧ List.Sorted (fun a b => b.matchPercentage ≤ a.matchPercentage) (detectChords an rn) := by
  rw [specPercentage_eq]
  refine ⟨?_, rfl, ?_⟩
  · rw [mem_detectChords, mem_candidates]
    constructor
    · rintro ⟨r, hr, e, he, h30, heq⟩
      have hepair : (e.1, e.2) ∈ chordDatabase := by
        rw [Prod.mk.eta]; exact he
      have hname : e.1 = chordType := congrArg ChordMatch.name heq.symm
      have hinfo : e.2 = info := by
        apply assoc_unique chordDatabase dbKeysNodup (a := chordType)
        · rw [← hname]; exact hepair
        · exact hdb
      have hroot' : r = root := by
        cases rn with
        | some s =>
          have h1 : r = s := by simpa [possibleRoots] using hr
          have h2 : root = s := by simpa [possibleRoots] using hroot
          rw [h1, h2]
        | none => exact (mkMatch_inj hr hroot hepair hdb heq.symm).1
      rwa [hroot', hinfo] at h30
    · intro h30
      exact ⟨root, hroot, (chordType, info), hdb, h30, rfl⟩
  · haveI : IsTotal ChordMatch (fun a b => b.matchPercentage ≤ a.matchPercentage) :=
      ⟨fun a b => le_total b.matchPercentage a.matchPercentage⟩
    haveI : IsTrans ChordMatch (fun a b => b.matchPercentage ≤ a.matchPercentage) :=
      ⟨fun _ _ _ h1 h2 => le_trans h2 h1⟩
    exact List.sorted_insertionSort _ _

theorem C1_matcher_scoring_witness :
    ("C" ∈ possibleRoots none) ∧
    (("major", (⟨"", [0, 4, 7]⟩ : ChordInfo)) ∈ chordDatabase) ∧
    ((mkMatch (matchPercentage ["C", "E", "G"] "C" ⟨"", [0, 4, 7]⟩) "C" "major"
          ⟨"", [0, 4, 7]⟩ ∈ detectChords ["C", "E", "G"] none ↔
        30 < specPercentage ["C", "E", "G"] "C" [0, 4, 7])
      ∧ (mkMatch (matchPercentage ["C", "E", "G"] "C" ⟨"", [0, 4, 7]⟩) "C" "major"
            ⟨"", [0, 4, 7]⟩).matchPercentage =
          min (specPercentage ["C", "E", "G"] "C" [0, 4, 7]) 100
      ∧ List.Sorted (fun a b => b.matchPercentage ≤ a.matchPercentage)
          (detectChords ["C", "E", "G"] none)) :=
  ⟨by decide, by decide,
    C1_matcher_scoring ["C", "E", "G"] none "C" "major" ⟨"", [0, 4, 7]⟩
      (by decide) (by decide)⟩

/-! ### C2: the top-ranked match for the pitch-class set C, E, G -/

set_option maxRecDepth 8000 in
set_option maxHeartbeats 4000000 in
/-- **C2**: for active notes forming the pitch-class set C, E, G and no root
hint, the matcher's top-ranked result is the C major triad with a match
percentage of 100. -/
theorem C2_c_major_top (an : List String) (h : an.Perm ["C", "E", "G"]) :
    (detectChords an none).head? =
      some ⟨"major", "C", 100, ["C", "E", "G"]⟩ := by
  rw [detectChords_congr h none]
  decide

theorem C2_c_major_top_witness :
    (detectChords ["C", "E", "G"] none).head? =
      some ⟨"major", "C", 100, ["C", "E", "G"]⟩ :=
  C2_c_major_top ["C", "E", "G"] (List.Perm.refl _)

/-! ### C6: every emitted match percentage lies in the interval 0 to 100 -/

/-- **C6**: every chord match emitted by the matcher carries a
`matchPercentage` between 0 and 100, for every input set of active notes and
every root hint; the stored value is the raw percentage clamped at 100, and
survivors have a raw percentage above 30. -/
theorem C6_percentage_in_range (an : List String) (rn : Option String)
    (m : ChordMatch) (hm : m ∈ detectChords an rn) :
    0 ≤ m.matchPercentage ∧ m.matchPercentage ≤ 100 := by
  rw [mem_detectChords, mem_candidates] at hm
  obtain ⟨r, _, e, _, h30, rfl⟩ := hm
  unfold mkMatch
  refine ⟨le_min (by linarith) (by norm_num), min_le_right _ _⟩

theorem C6_percentage_in_range_witness :
    ((⟨"major", "C", 100, ["C", "E", "G"]⟩ : ChordMatch) ∈
      detectChords ["C", "E", "G"] (some "C")) ∧
    (0 ≤ (100 : ℚ) ∧ (100 : ℚ) ≤ 100) :=
  ⟨by decide,
    C6_percentage_in_range ["C", "E", "G"] (some "C") ⟨"major", "C", 100, ["C", "E", "G"]⟩
      (by decide)⟩

/-! ### C7: the inferred root is the chromatically lowest detected note -/

theorem lowestLoop_spec (rest : List String) (cur : String) :
    lowestLoop rest cur (allNotes.indexOf cur) ∈ cur :: rest ∧
      ∀ n ∈ cur :: rest,
        allNotes.indexOf (lowestLoop rest cur (allNotes.indexOf cur)) ≤ allNotes.indexOf n := by
  induction rest generalizing cur with
  | nil =>
    constructor
    · exact List.mem_singleton.mpr rfl
    · intro n hn
      rw [List.mem_singleton.mp hn]
      show allNotes.indexOf cur ≤ allNotes.indexOf cur
      exact le_refl _
  | cons x xs ih =>
    unfold lowestLoop
    by_cases hx : allNotes.indexOf x < allNotes.indexOf cur
    · rw [if_pos hx]
      obtain ⟨hmem, hmin⟩ := ih x
      refine ⟨List.mem_cons_of_mem cur hmem, ?_⟩
      intro n hn
      rcases List.mem_cons.mp hn with h1 | h2
      · rw [h1]
        exact le_trans (hmin x (List.mem_cons_self x xs)) (le_of_lt hx)
      · exact hmin n h2
    · rw [if_neg hx]
      obtain ⟨hmem, hmin⟩ := ih cur
      refine ⟨?_, ?_⟩
      · rcases List.mem_cons.mp hmem with h1 | h2
        · rw [h1]; exact List.mem_cons_self cur (x :: xs)
        · exact List.mem_cons_of_mem cur (List.mem_cons_of_mem x h2)
      · intro n hn
        rcases List.mem_cons.mp hn with h1 | h2
        · rw [h1]
          exact hmin cur (List.mem_cons_self cur xs)
        · rcases List.mem_cons.mp h2 with h3 | h4
          · rw [h3]
            exact le_trans (hmin cur (List.mem_cons_self cur xs)) (le_of_not_lt hx)
          · exact hmin n (List.mem_cons_of_mem cur h4)

/-- **C7**: the root reported by the polyphonic recorder is none exactly when
no notes were detected, and otherwise it is a detected note whose index in
the fixed chromatic ordering C, C#, ..., B is least among all detected notes.
The hypothesis that every detected note is one of the 12 chromatic names
confines the statement to the inputs on which the embedding's `indexOf`
(which returns the list length for an absent element) agrees with the
source's `indexOf` (which returns -1); the detector only ever emits chromatic
names. -/
theorem C7_root_is_lowest (notes : List String) (_hn : ∀ n ∈ notes, n ∈ allNotes) :
    (inferRoot notes = none ↔ notes = []) ∧
      ∀ r, inferRoot notes = some r →
        r ∈ notes ∧ ∀ n ∈ notes, allNotes.indexOf r ≤ allNotes.indexOf n := by
  cases notes with
  | nil => exact ⟨by simp [inferRoot], fun r hr => by simp [inferRoot] at hr⟩
  | cons d rest =>
    refine ⟨by simp [inferRoot], fun r hr => ?_⟩
    have : r = lowestLoop rest d (allNotes.indexOf d) := by
      simpa [inferRoot] using hr.symm
    rw [this]
    exact lowestLoop_spec rest d

theorem C7_root_is_lowest_witness :
    (∀ n ∈ ["E", "C", "G"], n ∈ allNotes) ∧
    ((inferRoot ["E", "C", "G"] = none ↔ ["E", "C", "G"] = ([] : List String)) ∧
      ∀ r, inferRoot ["E", "C", "G"] = some r →
        r ∈ ["E", "C", "G"] ∧
          ∀ n ∈ ["E", "C", "G"], allNotes.indexOf r ≤ allNotes.indexOf n) :=
  ⟨by decide, C7_root_is_lowest ["E", "C", "G"] (by decide)⟩

/-! ### C8: the volume level exposed per tick -/

/-- **C8 counterexample**: the recorder's volume is `avg / 256` with no gamma
correction: on the spectrum with every bin at 128 it equals 1/2, whereas the
claimed gamma-corrected value `(mean / 256) ^ 0.7 = (1/2) ^ 0.7` differs
from 1/2. -/
theorem C8_counterexample :
    volumeLevel [128, 128] = 1 / 2 ∧
      ((volumeLevel [128, 128] : ℚ) : ℝ) ≠ ((128 : ℝ) / 256) ^ (0.7 : ℝ) := by
  have h1 : volumeLevel [128, 128] = 1 / 2 := by decide
  refine ⟨h1, ?_⟩
  rw [h1]
  have h128 : ((128 : ℝ) / 256) = 1 / 2 := by norm_num
  rw [h128]
  have h2 : ((1 : ℝ) / 2) ^ ((1 : ℝ)) < ((1 : ℝ) / 2) ^ ((0.7 : ℝ)) :=
    Real.rpow_lt_rpow_of_exponent_gt (by norm_num) (by norm_num) (by norm_num)
  rw [Real.rpow_one] at h2
  have h3 : ((1 / 2 : ℚ) : ℝ) = (1 : ℝ) / 2 := by norm_num
  rw [h3]
  exact ne_of_lt h2

/-- **C8 amended**: the volume level equals the mean byte-scaled magnitude
divided by 256, with no gamma correction, and lies in the interval from 0
to 1. -/
theorem C8_amended (data : List Nat) (hne : data ≠ []) (hb : ∀ x ∈ data, x ≤ 255) :
    volumeLevel data = ((data.sum : ℚ) / (data.length : ℚ)) / 256 ∧
      0 ≤ volumeLevel data ∧ volumeLevel data ≤ 1 := by
  have hlen : (0 : ℚ) < (data.length : ℚ) := by
    have : 0 < data.length := List.length_pos.mpr hne
    exact_mod_cast this
  refine ⟨rfl, ?_, ?_⟩
  · unfold volumeLevel
    positivity
  · unfold volumeLevel
    have hsum := List.sum_le_card_nsmul data 255 (fun x hx => hb x hx)
    rw [smul_eq_mul] at hsum
    have hsumQ : (data.sum : ℚ) ≤ (data.length : ℚ) * 255 := by exact_mod_cast hsum
    rw [div_le_one (by norm_num : (0 : ℚ) < 256)]
    rw [div_le_iff₀ hlen]
    linarith

theorem C8_amended_witness :
    ([128, 128] ≠ ([] : List Nat)) ∧ (∀ x ∈ [128, 128], x ≤ 255) ∧
    (volumeLevel [128, 128] = (((128 + 128 : Nat) : ℚ) / ((2 : Nat) : ℚ)) / 256 ∧
      0 ≤ volumeLevel [128, 128] ∧ volumeLevel [128, 128] ≤ 1) :=
  ⟨by decide, by decide, C8_amended [128, 128] (by decide) (by decide)⟩

/-! ### C9: the display's stability rule -/

/-- **C9 counterexample**: feeding the display the same pitch for 4
consecutive ticks (one more than the claimed 3) reports the note but not
stability, and even 7 ticks do not; stability appears only at the 8th tick,
because the effect raises the flag only when the tick counter read before its
increment already exceeds 5. -/
theorem C9_counterexample :
    (feedPitch ("A4", 0) 4 initialVState).displayPitch = some ("A4", 0) ∧
      (feedPitch ("A4", 0) 4 initialVState).isStable = false ∧
      (feedPitch ("A4", 0) 7 initialVState).isStable = false ∧
      (feedPitch ("A4", 0) 8 initialVState).isStable = true := by
  decide

theorem feedPitch_succ (p : String × Int) (n : Nat) (s : VState) :
    feedPitch p (n + 1) s = vstep (feedPitch p n s) (some p) := by
  induction n generalizing s with
  | zero => rfl
  | succ m ih =>
    show feedPitch p (m + 1) (vstep s (some p)) = _
    rw [ih (vstep s (some p))]
    rfl

/-- Stepping with a pitch equal to the displayed one takes the matching
branch of the effect. -/
theorem vstep_matching {s : VState} {p : String × Int} (hd : s.displayPitch = some p) :
    vstep s (some p) =
      { displayPitch := some p
        isStable := if 5 < s.stableTimer then true else s.isStable
        stableTimer := s.stableTimer + 1 } := by
  rcases s with ⟨d, b, t⟩
  have hd' : d = some p := hd
  subst hd'
  show (if p.1 = p.1 ∧ |p.2 - p.2| < 15 then _ else _) = _
  rw [if_pos ⟨rfl, by simp⟩]

/-- Any state's step on a pitch displays that pitch. -/
theorem vstep_displays (s : VState) (p : String × Int) :
    (vstep s (some p)).displayPitch = some p := by
  rcases s with ⟨d, b, t⟩
  rcases d with _ | dp
  · rfl
  · dsimp only [vstep]
    split <;> rfl

theorem feedPitch_invariant (p : String × Int) :
    ∀ n s, 1 ≤ n → (feedPitch p n s).displayPitch = some p ∧
      n - 1 ≤ (feedPitch p n s).stableTimer := by
  intro n
  induction n with
  | zero => intro s h; cases h
  | succ m ih =>
    intro s _
    rcases Nat.eq_zero_or_pos m with hm | hm
    · subst hm
      exact ⟨vstep_displays s p, Nat.zero_le _⟩
    · obtain ⟨hdisp, htimer⟩ := ih s hm
      rw [feedPitch_succ, vstep_matching hdisp]
      refine ⟨rfl, ?_⟩
      show m + 1 - 1 ≤ (feedPitch p m s).stableTimer + 1
      omega

/-- **C9 amended**: feeding the display the same pitch for at least 8
consecutive ticks (not 3) causes it to report the note as stable on the 8th
tick and on every tick thereafter, for as long as the same note continues
within the 15-cent stability window. -/
theorem C9_amended (s : VState) (p : String × Int) (n : Nat) (hn : 8 ≤ n) :
    (feedPitch p n s).isStable = true := by
  obtain ⟨m, rfl⟩ : ∃ m, n = m + 1 := ⟨n - 1, by omega⟩
  obtain ⟨hdisp, htimer⟩ := feedPitch_invariant p m s (by omega)
  rw [feedPitch_succ, vstep_matching hdisp]
  show (if 5 < (feedPitch p m s).stableTimer then true else (feedPitch p m s).isStable) = true
  rw [if_pos (by omega)]

theorem C9_amended_witness :
    (8 ≤ 8) ∧ (feedPitch ("A4", 0) 8 initialVState).isStable = true :=
  ⟨by decide, C9_amended initialVState ("A4", 0) 8 (by decide)⟩

/-! ### C10: only the 12 strongest peaks determine the polyphonic result -/

/-- **C10**: the polyphonic detector's pitch-class list is computed from the
qualifying peaks sorted descending by magnitude (stably) and truncated to the
strongest 12 before note mapping; consequently any two spectra whose strongest
12 sorted peaks agree produce the same pitch-class list, so every peak ranked
below the 12 strongest is ignored. -/
theorem C10_strongest_twelve :
    (∀ (data : List Nat) (fftSize sampleRate : ℚ),
        (sortPeaks (extractPeaksPoly data fftSize sampleRate)).Perm
            (extractPeaksPoly data fftSize sampleRate) ∧
        List.Sorted (fun a b => b.magnitude ≤ a.magnitude)
            (sortPeaks (extractPeaksPoly data fftSize sampleRate)) ∧
        detectPitches data fftSize sampleRate =
          collectNotes ((sortPeaks (extractPeaksPoly data fftSize sampleRate)).take 12) [])
    ∧ ∀ (data1 : List Nat) (fft1 sr1 : ℚ) (data2 : List Nat) (fft2 sr2 : ℚ),
        (sortPeaks (extractPeaksPoly data1 fft1 sr1)).take 12 =
          (sortPeaks (extractPeaksPoly data2 fft2 sr2)).take 12 →
        detectPitches data1 fft1 sr1 = detectPitches data2 fft2 sr2 := by
  constructor
  · intro data fftSize sampleRate
    refine ⟨List.perm_insertionSort _ _, ?_, rfl⟩
    haveI : IsTotal Peak (fun a b => b.magnitude ≤ a.magnitude) :=
      ⟨fun a b => le_total _ _⟩
    haveI : IsTrans Peak (fun a b => b.magnitude ≤ a.magnitude) :=
      ⟨fun _ _ _ h1 h2 => le_trans h2 h1⟩
    exact List.sorted_insertionSort _ _
  · intro data1 fft1 sr1 data2 fft2 sr2 h
    unfold detectPitches
    rw [h]

set_option maxRecDepth 8000 in
set_option maxHeartbeats 2000000 in
theorem C10_strongest_twelve_witness :
    ((sortPeaks (extractPeaksPoly (List.replicate 100 0 ++
          [213, 0, 212, 0, 211, 0, 210, 0, 209, 0, 208, 0, 207, 0, 206, 0, 205, 0,
            204, 0, 203, 0, 202, 0, 201]) 1 1)).take 12 =
        (sortPeaks (extractPeaksPoly (List.replicate 100 0 ++
          [213, 0, 212, 0, 211, 0, 210, 0, 209, 0, 208, 0, 207, 0, 206, 0, 205, 0,
            204, 0, 203, 0, 202, 0, 180]) 1 1)).take 12) ∧
    detectPitches (List.replicate 100 0 ++
        [213, 0, 212, 0, 211, 0, 210, 0, 209, 0, 208, 0, 207, 0, 206, 0, 205, 0,
          204, 0, 203, 0, 202, 0, 201]) 1 1 =
      detectPitches (List.replicate 100 0 ++
        [213, 0, 212, 0, 211, 0, 210, 0, 209, 0, 208, 0, 207, 0, 206, 0, 205, 0,
          204, 0, 203, 0, 202, 0, 180]) 1 1 :=
  ⟨by decide,
    C10_strongest_twelve.2 _ 1 1 _ 1 1 (by decide)⟩

/-! ### C3: the peak extractor's bin predicate -/

set_option maxRecDepth 8000 in
set_option maxHeartbeats 2000000 in
/-- **C3 counterexample**: a spectrum with a single isolated spike at bin 186
(sample rate 44100, transform size 2048, about 4005 Hz) satisfies the claimed
local-maximum-above-floor condition at that bin, yet the extractor reports no
peak: reporting additionally requires the bin frequency to lie strictly
inside the musical range (80, 1100), which the claim's iff omits. -/
theorem C3_counterexample :
    isLocalPeak 100 (List.replicate 186 0 ++ [200]) 186 ∧
      extractPeaksPoly (List.replicate 186 0 ++ [200]) 2048 44100 = [] := by
  constructor
  · decide
  · decide

theorem getD_mem_of_lt {data : List Nat} {j : Nat} (hj : j < data.length) :
    data.getD j 0 ∈ data := by
  simp only [List.getD_eq_getElem?_getD, List.getElem?_eq_getElem hj, Option.getD_some]
  exact List.getElem_mem hj

/-- **C3 amended**: a bin is reported as a peak exactly when it satisfies the
local-maximum-above-floor condition AND its frequency `i * sampleRate /
fftSize` lies strictly inside the musical range (80, 1100); and for every
spectrum whose bins are all at or below the respective floor, the polyphonic
extractor returns the empty sequence (and the detector the empty note list),
and the monophonic detector returns none. -/
theorem C3_amended (data : List Nat) (fftSize sampleRate : ℚ) (i : Nat)
    (hsr : 0 < sampleRate) (hfft : 0 < fftSize) (hi : i < data.length) :
    ((⟨binFrequency sampleRate fftSize i, data.getD i 0⟩ : Peak) ∈
        extractPeaksPoly data fftSize sampleRate ↔
      (isLocalPeak 100 data i ∧ 80 < binFrequency sampleRate fftSize i ∧
        binFrequency sampleRate fftSize i < 1100))
    ∧ ((∀ x ∈ data, x ≤ 100) → extractPeaksPoly data fftSize sampleRate = [] ∧
        detectPitches data fftSize sampleRate = [])
    ∧ ((∀ x ∈ data, x ≤ 30) → detectPitch data fftSize sampleRate = none) := by
  have hfreq_inj : ∀ j : Nat,
      binFrequency sampleRate fftSize j = binFrequency sampleRate fftSize i → j = i := by
    intro j hj
    unfold binFrequency at hj
    rw [div_eq_div_iff (ne_of_gt hfft) (ne_of_gt hfft)] at hj
    have h1 : (j : ℚ) = (i : ℚ) := by
      have h2 := mul_right_cancel₀ (ne_of_gt hfft) hj
      exact mul_right_cancel₀ (ne_of_gt hsr) h2
    exact_mod_cast h1
  refine ⟨?_, ?_, ?_⟩
  · unfold extractPeaksPoly
    rw [List.mem_filterMap]
    constructor
    · rintro ⟨j, hj, hfj⟩
      rw [List.mem_range] at hj
      by_cases hc : isLocalPeak 100 data j ∧ 80 < binFrequency sampleRate fftSize j ∧
          binFrequency sampleRate fftSize j < 1100
      · rw [if_pos hc] at hfj
        have hjf : binFrequency sampleRate fftSize j = binFrequency sampleRate fftSize i :=
          congrArg Peak.frequency (Option.some.inj hfj)
        have hji := hfreq_inj j hjf
        subst hji
        exact hc
      · rw [if_neg hc] at hfj
        cases hfj
    · intro hc
      refine ⟨i, List.mem_range.mpr hi, ?_⟩
      rw [if_pos hc]
  · intro hfloor
    have hext : extractPeaksPoly data fftSize sampleRate = [] := by
      unfold extractPeaksPoly
      rw [List.filterMap_eq_nil_iff]
      intro j hj
      rw [List.mem_range] at hj
      rw [if_neg]
      intro hcond
      exact absurd hcond.1.1 (not_lt.mpr (hfloor _ (getD_mem_of_lt hj)))
    refine ⟨hext, ?_⟩
    unfold detectPitches
    rw [hext]
    rfl
  · intro hfloor
    unfold detectPitch
    have hgen : ∀ (l : List Nat) (acc : Option PitchInfo),
        (∀ j ∈ l, ¬ isLocalPeak 30 data j) →
        l.foldl (detectPitchStep data fftSize sampleRate) acc = acc := by
      intro l
      induction l with
      | nil => intro acc _; rfl
      | cons j js ihl =>
        intro acc hall
        have hstep : detectPitchStep data fftSize sampleRate acc j = acc := by
          unfold detectPitchStep
          rw [if_neg (hall j (List.mem_cons_self _ _))]
        rw [List.foldl_cons, hstep]
        exact ihl _ fun k hk => hall k (List.mem_cons_of_mem _ hk)
    apply hgen
    intro j hj
    rw [List.mem_range] at hj
    intro hpk
    exact absurd hpk.1 (not_lt.mpr (hfloor _ (getD_mem_of_lt hj)))

theorem C3_amended_witness :
    ((0 : ℚ) < 100) ∧ ((0 : ℚ) < 1) ∧ (1 < [0, 120, 0].length) ∧
    (((⟨binFrequency 100 1 1, [0, 120, 0].getD 1 0⟩ : Peak) ∈
        extractPeaksPoly [0, 120, 0] 1 100 ↔
      (isLocalPeak 100 [0, 120, 0] 1 ∧ 80 < binFrequency 100 1 1 ∧
        binFrequency 100 1 1 < 1100))
    ∧ ((∀ x ∈ [0, 120, 0], x ≤ 100) → extractPeaksPoly [0, 120, 0] 1 100 = [] ∧
        detectPitches [0, 120, 0] 1 100 = [])
    ∧ ((∀ x ∈ [0, 120, 0], x ≤ 30) → detectPitch [0, 120, 0] 1 100 = none)) :=
  ⟨by norm_num, by norm_num, by decide,
    C3_amended [0, 120, 0] 1 100 1 (by norm_num) (by norm_num) (by decide)⟩

/-! ### C4: first-match band lookup -/

/-- **C4**: the frequency-to-note mapper returns the name of the first band
in table iteration order whose inclusive range contains the frequency, and
none when no band contains it; in particular, when two bands overlap the
earlier one wins, as witnessed in the polyphonic table at 270 Hz, which is
contained in both the C band and the C# band but resolves to C. -/
theorem C4_first_match (frequency : ℚ) (table : List NoteBand) :
    (∀ noteId, mapToNote frequency table = some noteId ↔
        ∃ band pre post, table = pre ++ band :: post ∧ bandContains band frequency ∧
          noteId = band.name ∧ ∀ b ∈ pre, ¬ bandContains b frequency)
    ∧ (mapToNote frequency table = none ↔ ∀ b ∈ table, ¬ bandContains b frequency)
    ∧ (∃ b ∈ noteFrequenciesPoly, b.name = "C#" ∧ bandContains b 270)
    ∧ mapToNote 270 noteFrequenciesPoly = some "C" := by
  refine ⟨?_, ?_, ?_, ?_⟩
  · intro noteId
    unfold mapToNote findBand
    rw [Option.map_eq_some']
    constructor
    · rintro ⟨band, hfind, hname⟩
      rw [List.find?_eq_some] at hfind
      obtain ⟨hp, pre, post, htab, hpre⟩ := hfind
      refine ⟨band, pre, post, htab, of_decide_eq_true hp, hname.symm, ?_⟩
      intro b hb
      simpa using hpre b hb
    · rintro ⟨band, pre, post, htab, hcont, hname, hpre⟩
      refine ⟨band, ?_, hname.symm⟩
      rw [List.find?_eq_some]
      refine ⟨decide_eq_true hcont, pre, post, htab, ?_⟩
      intro b hb
      simpa using hpre b hb
  · unfold mapToNote findBand
    rw [Option.map_eq_none', List.find?_eq_none]
    constructor
    · intro h b hb
      simpa using h b hb
    · intro h b hb
      simpa using h b hb
  · refine ⟨⟨"C#", 277.18 - 15, 277.18 + 15⟩, by decide, rfl, by decide⟩
  · decide

/-! ### C5: bounds on the monophonic cents deviation -/

/-- Every estimate produced by `detectPitch` comes from a band of the mono
table containing its frequency, carries that band's midpoint as reference
frequency, and has a frequency inside the inclusive vocal range. -/
def GoodPitch (q : PitchInfo) : Prop :=
  ∃ band ∈ noteFrequenciesMono, q.note = band.name ∧
    bandContains band q.frequency ∧ q.perfectFreq = (band.lo + band.hi) / 2 ∧
    65 ≤ q.frequency ∧ q.frequency ≤ 1000

theorem detectPitchStep_good (data : List Nat) (fftSize sampleRate : ℚ)
    (acc : Option PitchInfo) (j : Nat)
    (hacc : ∀ q, acc = some q → GoodPitch q) :
    ∀ q, detectPitchStep data fftSize sampleRate acc j = some q → GoodPitch q := by
  intro q hq
  unfold detectPitchStep at hq
  split at hq
  · split at hq
    next h65 =>
      split at hq
      next band hfb =>
        split at hq
        · obtain rfl : _ = q := Option.some.inj hq
          unfold findBand at hfb
          refine ⟨band, List.mem_of_find?_eq_some hfb, rfl, ?_, rfl, h65.1, h65.2⟩
          have hfind := List.find?_some hfb
          simp only [decide_eq_true_eq] at hfind
          exact hfind
        · exact hacc q hq
      next hfb => exact hacc q hq
    next h65 => exact hacc q hq
  · exact hacc q hq

theorem detectPitch_good (data : List Nat) (fftSize sampleRate : ℚ) (p : PitchInfo)
    (hp : detectPitch data fftSize sampleRate = some p) : GoodPitch p := by
  unfold detectPitch at hp
  suffices h : ∀ (l : List Nat) (acc : Option PitchInfo),
      (∀ q, acc = some q → GoodPitch q) →
      ∀ q, l.foldl (detectPitchStep data fftSize sampleRate) acc = some q → GoodPitch q by
    exact h (List.range data.length) none (fun q hq => by cases hq) p hp
  intro l
  induction l with
  | nil => intro acc hacc q hq; exact hacc q hq
  | cons j js ihl =>
    intro acc hacc q hq
    rw [List.foldl_cons] at hq
    exact ihl _ (detectPitchStep_good data fftSize sampleRate acc j hacc) q hq

set_option maxRecDepth 8000 in
set_option maxHeartbeats 4000000 in
/-- Numeric facts about the 48 bands of the mono table, strong enough to pin
the cents deviation of any contained frequency at or above 65 Hz into the
integer interval from -51 to 52. -/
theorem monoBands_bounds : ∀ band ∈ noteFrequenciesMono,
    0 < band.lo ∧ band.lo ≤ band.hi ∧
      (band.hi / ((band.lo + band.hi) / 2)) ^ 160 < (2 : ℚ) ^ 7 ∧
      (((band.lo + band.hi) / 2) / max band.lo 65) ^ 400 < (2 : ℚ) ^ 17 := by
  decide

/-- From rational power bounds on the edges of a band to integer bounds on
the rounded cents value of any frequency it contains. -/
theorem calculateCents_bounds (L f hi m : ℚ) (hL : 0 < L) (hm : 0 < m)
    (hLf : L ≤ f) (hfhi : f ≤ hi)
    (hup : (hi / m) ^ 160 < (2 : ℚ) ^ 7) (hdown : (m / L) ^ 400 < (2 : ℚ) ^ 17) :
    -51 ≤ calculateCents f m ∧ calculateCents f m ≤ 52 := by
  have hf : (0 : ℚ) < f := lt_of_lt_of_le hL hLf
  have hfR : (0 : ℝ) < (f : ℝ) := by exact_mod_cast hf
  have hmR : (0 : ℝ) < (m : ℝ) := by exact_mod_cast hm
  have hLR : (0 : ℝ) < (L : ℝ) := by exact_mod_cast hL
  set x : ℝ := (f : ℝ) / (m : ℝ) with hxdef
  have hx0 : 0 < x := div_pos hfR hmR
  have hlog2 : (0 : ℝ) < Real.log 2 := Real.log_pos (by norm_num)
  have hxle : x ≤ (hi : ℝ) / (m : ℝ) :=
    (div_le_div_right hmR).mpr (by exact_mod_cast hfhi)
  have hupR : ((hi : ℝ) / (m : ℝ)) ^ 160 < (2 : ℝ) ^ 7 := by exact_mod_cast hup
  have hx160 : x ^ 160 < (2 : ℝ) ^ 7 :=
    lt_of_le_of_lt (pow_le_pow_left hx0.le hxle 160) hupR
  have hlogup : (160 : ℝ) * Real.log x < 7 * Real.log 2 := by
    have h3 := Real.log_lt_log (pow_pos hx0 160) hx160
    rw [Real.log_pow, Real.log_pow] at h3
    push_cast at h3
    exact h3
  have hinvle : (m : ℝ) / (f : ℝ) ≤ (m : ℝ) / (L : ℝ) :=
    div_le_div_of_nonneg_left hmR.le hLR (by exact_mod_cast hLf)
  have hdownR : ((m : ℝ) / (L : ℝ)) ^ 400 < (2 : ℝ) ^ 17 := by exact_mod_cast hdown
  have hx400 : ((m : ℝ) / (f : ℝ)) ^ 400 < (2 : ℝ) ^ 17 :=
    lt_of_le_of_lt (pow_le_pow_left (by positivity) hinvle 400) hdownR
  have hmfx : (m : ℝ) / (f : ℝ) = x⁻¹ := by
    rw [hxdef, inv_div]
  have hlogdown : (400 : ℝ) * (-Real.log x) < 17 * Real.log 2 := by
    have h4 := Real.log_lt_log (by positivity) hx400
    rw [hmfx, Real.log_pow, Real.log_pow, Real.log_inv] at h4
    push_cast at h4
    exact h4
  have hlogb : Real.logb 2 x = Real.log x / Real.log 2 := rfl
  have hy_up : (1200 : ℝ) * Real.logb 2 x < 105 / 2 := by
    rw [hlogb, ← mul_div_assoc, div_lt_iff hlog2]
    linarith
  have hy_down : -(103 / 2 : ℝ) < 1200 * Real.logb 2 x := by
    rw [hlogb, ← mul_div_assoc, lt_div_iff hlog2]
    linarith
  unfold calculateCents
  rw [← hxdef]
  constructor
  · rw [round_eq, Int.le_floor]
    push_cast
    linarith
  · have hfl : ⌊(1200 : ℝ) * Real.logb 2 x + 1 / 2⌋ < 53 := by
      rw [Int.floor_lt]
      push_cast
      linarith
    rw [round_eq]
    omega

set_option maxRecDepth 8000 in
/-- **C5 counterexample**: on the two-bin spectrum with magnitudes 0 and 255,
transform size 100 and sample rate 6741, the detector reports 67.41 Hz inside
the C2 band from 63.41 to 67.41 (midpoint 65.41), whose cents deviation
`round(1200 * log2(67.41 / 65.41)) = 52` lies outside the claimed interval
from -50 to 50. -/
theorem C5_counterexample :
    detectPitch [0, 255] 100 6741 =
      some (⟨"C2", 6741 / 100, 255, 2, 6541 / 100⟩ : PitchInfo) ∧
      50 < calculateCents (6741 / 100) (6541 / 100) := by
  refine ⟨by decide, ?_⟩
  have hr : (((6741 : ℚ) / 100 : ℚ) : ℝ) / (((6541 : ℚ) / 100 : ℚ) : ℝ) =
      (6741 : ℝ) / 6541 := by
    push_cast
    norm_num
  have hlog2 : (0 : ℝ) < Real.log 2 := Real.log_pos (by norm_num)
  have hpow : ((2 : ℝ) ^ 13) < ((6741 : ℝ) / 6541) ^ 300 := by
    have hq : ((2 : ℚ) ^ 13) < ((6741 : ℚ) / 6541) ^ 300 := by decide
    have hr := (Rat.cast_lt (K := ℝ)).mpr hq
    push_cast at hr
    exact hr
  have hlog : (13 : ℝ) * Real.log 2 < 300 * Real.log ((6741 : ℝ) / 6541) := by
    have h := Real.log_lt_log (by positivity) hpow
    rw [Real.log_pow, Real.log_pow] at h
    push_cast at h
    exact h
  unfold calculateCents
  rw [hr]
  have hy : (101 : ℝ) / 2 ≤ 1200 * Real.logb 2 ((6741 : ℝ) / 6541) := by
    rw [show Real.logb 2 ((6741 : ℝ) / 6541) =
        Real.log ((6741 : ℝ) / 6541) / Real.log 2 from rfl]
    rw [← mul_div_assoc, le_div_iff hlog2]
    linarith
  have h51 : (51 : ℤ) ≤ round ((1200 : ℝ) * Real.logb 2 ((6741 : ℝ) / 6541)) := by
    rw [round_eq, Int.le_floor]
    push_cast
    linarith
  omega

/-- **C5 amended**: every estimate produced by the monophonic detector has a
cents deviation `round(1200 * log2(frequency / perfectFreq))`, with
`perfectFreq` the midpoint of the matched band, that is an integer in the
interval from -51 to 52 (not -50 to 50). -/
theorem C5_amended (data : List Nat) (fftSize sampleRate : ℚ) (p : PitchInfo)
    (hp : detectPitch data fftSize sampleRate = some p) :
    -51 ≤ calculateCents p.frequency p.perfectFreq ∧
      calculateCents p.frequency p.perfectFreq ≤ 52 := by
  obtain ⟨band, hbm, hname, hcont, hperf, h65, h1000⟩ :=
    detectPitch_good data fftSize sampleRate p hp
  obtain ⟨hlo0, hlohi, hup, hdown⟩ := monoBands_bounds band hbm
  rw [hperf]
  apply calculateCents_bounds (max band.lo 65) p.frequency band.hi
    ((band.lo + band.hi) / 2)
  · exact lt_of_lt_of_le (by norm_num) (le_max_right band.lo 65)
  · linarith
  · exact max_le hcont.1 h65
  · exact hcont.2
  · exact hup
  · exact hdown

set_option maxRecDepth 8000 in
theorem C5_amended_witness :
    -51 ≤ calculateCents (⟨"C2", 6741 / 100, 255, 2, 6541 / 100⟩ : PitchInfo).frequency
        (⟨"C2", 6741 / 100, 255, 2, 6541 / 100⟩ : PitchInfo).perfectFreq ∧
      calculateCents (⟨"C2", 6741 / 100, 255, 2, 6541 / 100⟩ : PitchInfo).frequency
        (⟨"C2", 6741 / 100, 255, 2, 6541 / 100⟩ : PitchInfo).perfectFreq ≤ 52 :=
  C5_amended [0, 255] 100 6741 ⟨"C2", 6741 / 100, 255, 2, 6541 / 100⟩ (by decide)

end ChordAnalyzer
